import Mathlib

/-!
Formal model of the IPTS touch pipeline of src/ipts.c, together with
theorems settling the claims C1-C10 about it.

Modelling conventions:
- C float quantities are modelled by rationals.
- The fixed-size C arrays of clusters are modelled by a total function
  from Nat together with an explicit size field, mirroring the
  struct cluster_group of the source.
- The recursive flood fill assign_group_dimmer is modelled by a
  fuel-indexed total function; the stabilisation theorem for claim C8
  shows that MAX_CLUSTER_SIZE + 1 units of fuel (the initial call plus
  at most MAX_CLUSTER_SIZE nested recursive calls) already compute the
  fixpoint, which is exactly the recursion-depth bound of the source.
- The pixel grid is modelled as a value function v : Nat → Nat → Nat;
  the normaliser of the source stores, at grid cell (x, y), a pixel
  record carrying its own coordinates and its value, so a cluster
  member admitted at (x, y) is the record with fields x, y, v x y.
-/

namespace Ipts

-- Compile-time constants (src/ipts.c lines 17-21).
def WIDTH : Nat := 64

def HEIGHT : Nat := 44

def MAX_CLUSTER_SIZE : Nat := 128

def MAX_CLUSTERS : Nat := 16

-- struct pixel (src/ipts.c lines 23-27).
structure Pixel where
  x : Nat
  y : Nat
  value : Nat
  deriving DecidableEq

/-- Proposition that grid cell (a, b) is one of the eight neighbours of
cell (x, y): each coordinate differs by at most one and the cells are
not equal.  Nat coordinates: the value a with a + 1 = x stands for
x - 1, which also rules the left column out when x = 0. -/
def neighbPos (x y a b : Nat) : Prop :=
  (a = x ∨ a + 1 = x ∨ a = x + 1) ∧ (b = y ∨ b + 1 = y ∨ b = y + 1) ∧
    ¬(a = x ∧ b = y)

instance (x y a b : Nat) : Decidable (neighbPos x y a b) := by
  unfold neighbPos
  infer_instance

/-- Model of is_brightest (src/ipts.c lines 129-145): a pixel is a local
maximum when its value is nonzero and no in-bounds 8-neighbour is
strictly brighter.  The nested bounds guards of the C code are flattened
into one guard per neighbour. -/
def is_brightest (v : Nat → Nat → Nat) (x y : Nat) : Bool :=
  if v x y = 0 then false
  else if 0 < x ∧ 0 < y ∧ v x y < v (x - 1) (y - 1) then false
  else if 0 < x ∧ v x y < v (x - 1) y then false
  else if 0 < x ∧ y < HEIGHT - 1 ∧ v x y < v (x - 1) (y + 1) then false
  else if 0 < y ∧ v x y < v x (y - 1) then false
  else if y < HEIGHT - 1 ∧ v x y < v x (y + 1) then false
  else if x < WIDTH - 1 ∧ 0 < y ∧ v x y < v (x + 1) (y - 1) then false
  else if x < WIDTH - 1 ∧ v x y < v (x + 1) y then false
  else if x < WIDTH - 1 ∧ y < HEIGHT - 1 ∧ v x y < v (x + 1) (y + 1) then false
  else true

/-- List of the in-bounds 8-neighbours of (x, y), in the visit order of
assign_group_dimmer (src/ipts.c lines 114-125): left column top to
bottom, then above, below, then right column top to bottom. -/
def nbrList (x y : Nat) : List (Nat × Nat) :=
  (if 0 < x ∧ 0 < y then [(x - 1, y - 1)] else []) ++
  (if 0 < x then [(x - 1, y)] else []) ++
  (if 0 < x ∧ y < HEIGHT - 1 then [(x - 1, y + 1)] else []) ++
  (if 0 < y then [(x, y - 1)] else []) ++
  (if y < HEIGHT - 1 then [(x, y + 1)] else []) ++
  (if x < WIDTH - 1 ∧ 0 < y then [(x + 1, y - 1)] else []) ++
  (if x < WIDTH - 1 then [(x + 1, y)] else []) ++
  (if x < WIDTH - 1 ∧ y < HEIGHT - 1 then [(x + 1, y + 1)] else [])

/-- Model of assign_group_dimmer (src/ipts.c lines 96-126).  The cluster
is its member list in admission order; the extra fuel argument bounds
the depth of nested calls (claim C8 shows MAX_CLUSTER_SIZE + 1 is always
enough).  A call aborts when the cluster is full, the pixel is already a
member, the pixel is black, or the pixel is brighter than the threshold;
otherwise it appends the pixel and recurses into the in-bounds
neighbours with the just-admitted value as the new threshold. -/
def assign_group_dimmer (v : Nat → Nat → Nat) :
    Nat → Nat → Nat → List Pixel → Nat → List Pixel
  | 0, _, _, cluster, _ => cluster
  | fuel + 1, x, y, cluster, threshold =>
    if MAX_CLUSTER_SIZE ≤ cluster.length then cluster
    else if cluster.any (fun q => q.x == x && q.y == y) then cluster
    else if v x y = 0 then cluster
    else if threshold < v x y then cluster
    else
      (nbrList x y).foldl
        (fun c p => assign_group_dimmer v fuel p.1 p.2 c (v x y))
        (cluster ++ [(⟨x, y, v x y⟩ : Pixel)])

/-- Specification-side seed predicate from the claim: positive value and
no strictly brighter in-bounds 8-neighbour (ties allowed). -/
def seedSpec (v : Nat → Nat → Nat) (x y : Nat) : Prop :=
  0 < v x y ∧
    ∀ a b : Nat, a < WIDTH → b < HEIGHT → neighbPos x y a b → v a b ≤ v x y

-- Concrete plateau grid used by the witness of C7: two adjacent samples
-- of equal value 7, everything else zero.
def plateauGrid : Nat → Nat → Nat := fun x y =>
  if (x = 5 ∨ x = 6) ∧ y = 5 then 7 else 0

/-- Monotone-descent property of a member list: every member after the
first has an earlier member that is an 8-neighbour of it and at least as
bright. -/
def MonoDescent (l : List Pixel) : Prop :=
  ∀ i (hi : i < l.length), 0 < i →
    ∃ j, ∃ hj : j < l.length, j < i ∧
      neighbPos (l.get ⟨i, hi⟩).x (l.get ⟨i, hi⟩).y
        (l.get ⟨j, hj⟩).x (l.get ⟨j, hj⟩).y ∧
      (l.get ⟨i, hi⟩).value ≤ (l.get ⟨j, hj⟩).value

/-- Call contract of each recursive invocation: either the cluster is
still empty (the seed call from main), or some already-admitted member
is an 8-neighbour of the target cell whose value is at least the
threshold (the caller pixel, whose value is the threshold). -/
def GoodCall (c : List Pixel) (x y t : Nat) : Prop :=
  c = [] ∨ ∃ j, ∃ hj : j < c.length,
    neighbPos x y (c.get ⟨j, hj⟩).x (c.get ⟨j, hj⟩).y ∧
      t ≤ (c.get ⟨j, hj⟩).value

-- Grid that is zero everywhere, used by the C8 witness.
def zeroGrid : Nat → Nat → Nat := fun _ _ => 0

-- Total weight of a member list (src/ipts.c lines 345-352, the float
-- accumulator total_weight modelled over the rationals).
def totalWeightQ (l : List Pixel) : ℚ :=
  l.foldl (fun a p => a + (p.value : ℚ)) 0

-- Grid with a single bright sample at (5, 5), used by the C9 witness.
def brightGrid : Nat → Nat → Nat := fun x y =>
  if x = 5 ∧ y = 5 then 10 else 0

-- struct cluster (src/ipts.c lines 29-41).  The pixels array and its
-- size field are the members list; float fields are rationals; the C
-- int id is an Int.
structure Cluster where
  members : List Pixel
  centre_x : ℚ
  centre_y : ℚ
  x1 : ℚ
  y1 : ℚ
  x2 : ℚ
  y2 : ℚ
  diameter : ℚ
  valid : Bool
  id : Int
  deriving DecidableEq

-- Zero-initialised cluster (the memset of src/ipts.c line 269).
def cZero : Cluster := ⟨[], 0, 0, 0, 0, 0, 0, 0, false, 0⟩

-- struct cluster_group (src/ipts.c lines 43-46): a fixed array of
-- MAX_CLUSTERS clusters together with a size field, modelled as a total
-- function from Nat; only indices below size are meaningful.
structure ClusterGroup where
  size : Nat
  clusters : Nat → Cluster

/-- Geometry stage for one cluster (src/ipts.c lines 343-363): weighted
centroid offset by half a cell, diameter equal to the total weight over
100, bounding box centred on the centroid, and the validity flag set
exactly when the diameter exceeds 0.5. -/
def computeGeom (members : List Pixel) : Cluster :=
  let total_weight : ℚ := totalWeightQ members
  let weighted_x : ℚ := members.foldl (fun a p => a + (p.x : ℚ) * (p.value : ℚ)) 0
  let weighted_y : ℚ := members.foldl (fun a p => a + (p.y : ℚ) * (p.value : ℚ)) 0
  let cx := weighted_x / total_weight + mkRat 1 2
  let cy := weighted_y / total_weight + mkRat 1 2
  let d := total_weight / 100
  { members := members
    centre_x := cx
    centre_y := cy
    x1 := cx - d / 2
    y1 := cy - d / 2
    x2 := cx + d / 2
    y2 := cy + d / 2
    diameter := d
    valid := decide (mkRat 1 2 < d)
    id := 0 }

/-- Giant-contact veto (src/ipts.c lines 364-372): the disable_touch
flag is raised when some cluster of the group has diameter above 10, and
then every cluster of the group is marked invalid. -/
def applyVeto (g : ClusterGroup) : ClusterGroup :=
  if (List.range g.size).any (fun i => decide (10 < (g.clusters i).diameter)) then
    { g with clusters := fun i =>
        if i < g.size then { g.clusters i with valid := false } else g.clusters i }
  else g

-- Axis-aligned intersection area and bbox area of the overlap pass
-- (src/ipts.c lines 379-382); fmax and fmin are max and min.
def interArea (a b : Cluster) : ℚ :=
  max 0 (min a.x2 b.x2 - max a.x1 b.x1) * max 0 (min a.y2 b.y2 - max a.y1 b.y1)

def areaOf (a : Cluster) : ℚ := (a.x2 - a.x1) * (a.y2 - a.y1)

def invalidateAt (g : ClusterGroup) (i : Nat) : ClusterGroup :=
  { g with clusters := Function.update g.clusters i { g.clusters i with valid := false } }

/-- One step of the overlap-suppression pass for the ordered pair (i, j)
(src/ipts.c lines 377-393): when both clusters are valid, the ratio of
the intersection to the smaller bbox area is compared against 0.25 and
the cluster with the smaller area (the second operand of the area
comparison, i on ties) is invalidated. -/
def overlapPair (g : ClusterGroup) (i j : Nat) : ClusterGroup :=
  if (g.clusters i).valid = true ∧ (g.clusters j).valid = true then
    if areaOf (g.clusters j) < areaOf (g.clusters i) then
      if mkRat 1 4 < interArea (g.clusters i) (g.clusters j) / areaOf (g.clusters j) then
        invalidateAt g j
      else g
    else
      if mkRat 1 4 < interArea (g.clusters i) (g.clusters j) / areaOf (g.clusters i) then
        invalidateAt g i
      else g
  else g

def ovStep (g : ClusterGroup) (p : Nat × Nat) : ClusterGroup :=
  overlapPair g p.1 p.2

/-- Ordered pairs (i, j) with i < j < n, in the visit order of the two
nested loops of src/ipts.c lines 375-376. -/
def pairIdx (n : Nat) : List (Nat × Nat) :=
  (List.range n).flatMap (fun i =>
    (List.range n).filterMap (fun j => if i < j then some (i, j) else none))

def overlapPass (g : ClusterGroup) : ClusterGroup :=
  (pairIdx g.size).foldl ovStep g

-- Concrete one-cluster group with an oversized cluster, used by the C3
-- witness.
def palmCluster : Cluster :=
  ⟨[], 0, 0, 0, 0, 0, 0, mkRat 11 1, true, 0⟩

def palmGroup : ClusterGroup :=
  ⟨1, fun i => if i = 0 then palmCluster else cZero⟩

-- Concrete overlapping pair used by the C2 witness: cluster 0 has bbox
-- (0,0)-(4,4), cluster 1 has bbox (0,0)-(2,2); the intersection is the
-- whole smaller box, so the ratio 1 exceeds 0.25 and cluster 1 must be
-- invalidated.
def ovBig : Cluster :=
  ⟨[], 0, 0, 0, 0, mkRat 4 1, mkRat 4 1, 0, true, 0⟩

def ovSmall : Cluster :=
  ⟨[], 0, 0, 0, 0, mkRat 2 1, mkRat 2 1, 0, true, 0⟩

def ovG : ClusterGroup :=
  ⟨2, fun i => if i = 0 then ovBig else if i = 1 then ovSmall else cZero⟩

-- Inter-frame tracker (src/ipts.c lines 397-435).

-- Squared euclidean distance between centres (line 405).
def sqDist (a b : Cluster) : ℚ :=
  (a.centre_x - b.centre_x) ^ 2 + (a.centre_y - b.centre_y) ^ 2

/-- Scan of the current clusters for the closest valid unmatched one
(src/ipts.c lines 401-411): the accumulator carries closest_distance
(initially 1000000) and closest_index (initially none, the C value -1);
only clusters with valid set and id still 0 compete, and a strictly
smaller distance wins. -/
def closestScan (g : ClusterGroup) (p : Cluster) : ℚ × Option Nat :=
  (List.range g.size).foldl
    (fun acc m =>
      if (g.clusters m).valid = true ∧ (g.clusters m).id = 0 then
        if sqDist (g.clusters m) p < acc.1 then (sqDist (g.clusters m) p, some m)
        else acc
      else acc)
    (mkRat 1000000 1, none)

def closestIdx (g : ClusterGroup) (p : Cluster) : Option Nat :=
  (closestScan g p).2

def assignIdAt (g : ClusterGroup) (m : Nat) (idv : Int) : ClusterGroup :=
  { g with clusters := Function.update g.clusters m { g.clusters m with id := idv } }

/-- One pairing step for previous cluster n (src/ipts.c lines 399-414):
skip invalid previous clusters, otherwise give the closest valid
unmatched current cluster the previous id. -/
def pairStep (prev : ClusterGroup) (g : ClusterGroup) (n : Nat) : ClusterGroup :=
  if (prev.clusters n).valid = true then
    match closestIdx g (prev.clusters n) with
    | some m => assignIdAt g m (prev.clusters n).id
    | none => g
  else g

def pairClusters (prev g : ClusterGroup) : ClusterGroup :=
  (List.range prev.size).foldl (pairStep prev) g

/-- Whether some cluster of the group currently carries the id idv
(src/ipts.c lines 423-429; the scan covers every cluster of the group,
valid or not). -/
def idUsedB (g : ClusterGroup) (idv : Int) : Bool :=
  (List.range g.size).any (fun n => (g.clusters n).id == idv)

/-- The while-loop of src/ipts.c lines 421-432 searching for the lowest
unused id, modelled with enough fuel to cover g.size + 1 candidates
(by pigeonhole one of them is always free). -/
def lowestUnused (g : ClusterGroup) : Nat → Int → Int
  | 0, idv => idv
  | fuel + 1, idv => if idUsedB g idv then lowestUnused g fuel (idv + 1) else idv

def freshId (g : ClusterGroup) : Int := lowestUnused g (g.size + 1) 1

/-- One fresh-id step for current cluster m (src/ipts.c lines 418-434):
a valid cluster whose id is still 0 receives the lowest unused id. -/
def freshStep (g : ClusterGroup) (m : Nat) : ClusterGroup :=
  if (g.clusters m).valid = true ∧ (g.clusters m).id = 0 then
    assignIdAt g m (freshId g)
  else g

def assignFresh (g : ClusterGroup) : ClusterGroup :=
  (List.range g.size).foldl freshStep g

def track (prev g : ClusterGroup) : ClusterGroup :=
  assignFresh (pairClusters prev g)

-- Frame-state invariants about tracking ids.

def validPos (g : ClusterGroup) : Prop :=
  ∀ n, n < g.size → (g.clusters n).valid = true → 0 < (g.clusters n).id

def validDistinct (g : ClusterGroup) : Prop :=
  ∀ n, n < g.size → ∀ m, m < g.size → n ≠ m → (g.clusters n).valid = true →
    (g.clusters m).valid = true → (g.clusters n).id ≠ (g.clusters m).id

instance (g : ClusterGroup) : Decidable (validPos g) := by
  unfold validPos
  infer_instance

set_option synthInstance.maxSize 512 in
instance (g : ClusterGroup) : Decidable (validDistinct g) := by
  unfold validDistinct
  infer_instance

def nzInv (g : ClusterGroup) : Prop :=
  ∀ m, m < g.size → (g.clusters m).id ≠ 0 →
    (g.clusters m).valid = true ∧ 0 < (g.clusters m).id

def distinctNZ (g : ClusterGroup) : Prop :=
  ∀ i j, i < g.size → j < g.size → i ≠ j → (g.clusters i).id ≠ 0 →
    (g.clusters j).id ≠ (g.clusters i).id

/-- Uniqueness property of the claim: a positive id held by a valid
cluster is held by no other cluster of the same frame. -/
def uniquePos (g : ClusterGroup) : Prop :=
  ∀ i j, i < g.size → j < g.size → i ≠ j → (g.clusters i).valid = true →
    0 < (g.clusters i).id → (g.clusters j).id ≠ (g.clusters i).id

-- Cluster with only the tracking-relevant fields set, used by the
-- concrete tracker frames below.
def mkTrackCluster (cx cy : ℚ) (b : Bool) (idv : Int) : Cluster :=
  ⟨[], cx, cy, 0, 0, 0, 0, 0, b, idv⟩

def prevW : ClusterGroup :=
  ⟨1, fun n => if n = 0 then mkTrackCluster 0 0 true 1 else cZero⟩

def curW : ClusterGroup :=
  ⟨1, fun n => if n = 0 then mkTrackCluster (mkRat 3 1) (mkRat 4 1) true 0 else cZero⟩

-- Previous frame of the id-recycling scenario: three valid contacts
-- with ids 1, 2, 3 at x = 10, 20, 30 (all at y = 10).
def prevS : ClusterGroup :=
  ⟨3, fun n =>
    if n = 0 then mkTrackCluster (mkRat 10 1) (mkRat 10 1) true 1
    else if n = 1 then mkTrackCluster (mkRat 20 1) (mkRat 10 1) true 2
    else if n = 2 then mkTrackCluster (mkRat 30 1) (mkRat 10 1) true 3
    else cZero⟩

-- Current frame of the scenario: the middle contact has lifted, the
-- contacts at x = 10 and x = 30 survive, and a new fourth contact
-- appears at x = 50.
def curS : ClusterGroup :=
  ⟨3, fun n =>
    if n = 0 then mkTrackCluster (mkRat 10 1) (mkRat 10 1) true 0
    else if n = 1 then mkTrackCluster (mkRat 30 1) (mkRat 10 1) true 0
    else if n = 2 then mkTrackCluster (mkRat 50 1) (mkRat 10 1) true 0
    else cZero⟩

-- One-cluster frame used by the C5 witness: a single valid cluster with
-- id 0 about to receive the lowest free id.
def gW5 : ClusterGroup :=
  ⟨1, fun n => if n = 0 then mkTrackCluster 0 0 true 0 else cZero⟩

-- Tracking state reached when one transport buffer carries two heatmap
-- reports.  The cluster group is zero-initialised once per transport
-- buffer (src/ipts.c line 269) while segmentation and tracking run once
-- per 0x25 report (line 310), and one 7485-byte buffer can hold two
-- in-bounds heatmap reports (10 + 12 + 2 * (16 + 4 + 2816) = 5694
-- bytes).  A first buffer leaves the previous group with one valid
-- contact of id 1 near (10, 10):
def prevStale : ClusterGroup :=
  ⟨1, fun n => if n = 0 then mkTrackCluster (mkRat 10 1) (mkRat 10 1) true 1 else cZero⟩

-- In the next buffer, the first heatmap report pairs its single cluster
-- 0 to the previous id 1.  The second heatmap report of the same buffer
-- shows that contact plus a new one near (30, 10); line 329 resets only
-- the group's size, the valid flag is only ever set (line 363) and ids
-- are untouched before tracking, so the second report's tracking starts
-- from cluster 0 stale (valid, id 1) and cluster 1 fresh (valid, id 0):
def curStale : ClusterGroup :=
  ⟨2, fun n =>
    if n = 0 then mkTrackCluster (mkRat 10 1) (mkRat 10 1) true 1
    else if n = 1 then mkTrackCluster (mkRat 30 1) (mkRat 10 1) true 0
    else cZero⟩

-- Multi-touch sink (src/ipts.c lines 495-525).

-- Events written through emit (src/ipts.c lines 147-158), identified by
-- their event code; the int payload of emit is the value argument.
inductive Ev where
  | slot (n : Int)
  | mtPosX (v : Int)
  | mtPosY (v : Int)
  | touchMajor (v : Int)
  | trackingId (v : Int)
  | absX (v : Int)
  | absY (v : Int)
  | btnTouch (v : Int)
  | syn
  deriving DecidableEq

-- Truncation toward zero of the implicit float-to-int conversion at the
-- emit call sites.
def cInt (q : ℚ) : Int := if q < 0 then ⌈q⌉ else ⌊q⌋

def SCALE : Nat := 16

-- Count of valid clusters (src/ipts.c lines 495-500).
def validCount (g : ClusterGroup) : Nat :=
  ((List.range g.size).filter (fun i => (g.clusters i).valid)).length

/-- Inner loop of one slot (src/ipts.c lines 505-519): scan every
cluster; a valid cluster whose id equals n + 1 emits its position and
touch-major (plus the single-touch events when exactly one cluster is
valid in the frame) and becomes the slot's tracking id, which starts
at -1. -/
def slotScan (g : ClusterGroup) (vc : Nat) (n : Nat) : List Ev × Int :=
  (List.range g.size).foldl
    (fun acc i =>
      if (g.clusters i).id = (n : Int) + 1 ∧ (g.clusters i).valid = true then
        (acc.1 ++
          [Ev.mtPosX (cInt ((g.clusters i).centre_x * (SCALE : ℚ))),
           Ev.mtPosY (cInt ((g.clusters i).centre_y * (SCALE : ℚ))),
           Ev.touchMajor (cInt ((g.clusters i).diameter * (SCALE : ℚ)))] ++
          (if vc = 1 then
            [Ev.absX (cInt ((g.clusters i).centre_x * (SCALE : ℚ))),
             Ev.absY (cInt ((g.clusters i).centre_y * (SCALE : ℚ))),
             Ev.btnTouch 1]
           else []),
         (g.clusters i).id)
      else acc)
    ([], -1)

def slotEvents (g : ClusterGroup) (vc : Nat) (n : Nat) : List Ev :=
  Ev.slot n :: (slotScan g vc n).1 ++ [Ev.trackingId (slotScan g vc n).2]

/-- Whole-frame emission (src/ipts.c lines 503-525) parameterised by the
valid-cluster count used in its branches: the six slots in order, the
touch-up key when the count is not one, then the sync marker. -/
def emitFrameWith (g : ClusterGroup) (vc : Nat) : List Ev :=
  (List.range 6).foldl (fun acc n => acc ++ slotEvents g vc n) [] ++
    (if vc ≠ 1 then [Ev.btnTouch 0] else []) ++ [Ev.syn]

def emitFrame (g : ClusterGroup) : List Ev := emitFrameWith g (validCount g)

/-- Copy of the group in which every valid cluster with id above 6 is
replaced by the zero cluster. -/
def dropBig (g : ClusterGroup) : ClusterGroup :=
  { g with clusters := fun i =>
      if (g.clusters i).valid = true ∧ 6 < (g.clusters i).id then cZero
      else g.clusters i }

-- Protocol decoder (src/ipts.c lines 276-536), instrumented to record
-- every (offset, length) range of the transport buffer that the parse
-- dereferences.  The buffer is a total byte function; the C code has no
-- bounds check against the 7485-byte read, so the model records the
-- accesses and claim C1 examines whether any of them extends past the
-- buffer.

def readU8 (buf : Nat → Nat) (i : Nat) : Nat := buf i % 256

def readU16 (buf : Nat → Nat) (i : Nat) : Nat :=
  readU8 buf i + 256 * readU8 buf (i + 1)

def readU32 (buf : Nat → Nat) (i : Nat) : Nat :=
  readU8 buf i + 256 * readU8 buf (i + 1) + 65536 * readU8 buf (i + 2) +
    16777216 * readU8 buf (i + 3)

/-- Payload accesses of one recognised report (src/ipts.c lines
301-529): a stylus report 0x60 reads its 8-byte preamble and elements
16-byte element records; a heatmap report 0x25 reads WIDTH * HEIGHT =
2816 sample bytes. -/
def reportAccesses (buf : Nat → Nat) (pos rtype : Nat) : List (Nat × Nat) :=
  if rtype = 0x60 then
    (pos, 8) :: (List.range (readU8 buf pos)).map (fun k => (pos + 8 + 16 * k, 16))
  else if rtype = 0x25 then [(pos, 2816)]
  else []

/-- Report loop of one raw frame (src/ipts.c lines 296-531): while the
cursor is before the frame's eof, read a 4-byte report header, process
the payload, and advance by 4 plus the declared report size.  Each
iteration advances the cursor by at least 4 bytes, so fuel equal to the
declared frame size always covers the loop; the result is the final
cursor and the recorded accesses. -/
def reportLoop (buf : Nat → Nat) : Nat → Nat → Nat → Nat × List (Nat × Nat)
  | 0, pos, _ => (pos, [])
  | fuel + 1, pos, eof =>
    if pos < eof then
      ((reportLoop buf fuel (pos + 4 + readU16 buf (pos + 2)) eof).1,
        ((pos, 4) :: reportAccesses buf (pos + 4) (readU8 buf pos)) ++
          (reportLoop buf fuel (pos + 4 + readU16 buf (pos + 2)) eof).2)
    else (pos, [])

/-- Loop over the declared number of raw frames (src/ipts.c lines
287-535): read a 16-byte raw frame header, then either run the report
loop (frame type 6 or 8) or skip the declared frame size. -/
def frameLoop (buf : Nat → Nat) : Nat → Nat → List (Nat × Nat)
  | 0, _ => []
  | n + 1, pos =>
    (pos, 16) ::
      ((if readU16 buf (pos + 2) = 6 ∨ readU16 buf (pos + 2) = 8 then
          reportLoop buf (readU32 buf (pos + 4)) (pos + 16)
            (pos + 16 + readU32 buf (pos + 4))
        else (pos + 16 + readU32 buf (pos + 4), [])).2 ++
        frameLoop buf n
          (if readU16 buf (pos + 2) = 6 ∨ readU16 buf (pos + 2) = 8 then
            reportLoop buf (readU32 buf (pos + 4)) (pos + 16)
              (pos + 16 + readU32 buf (pos + 4))
          else (pos + 16 + readU32 buf (pos + 4), [])).1)

/-- Whole-buffer decode (src/ipts.c lines 276-536): the 10-byte HID
header is always read; when its type byte is 0xEE the 12-byte raw
header follows and the declared number of raw frames is walked. -/
def decodeAccesses (buf : Nat → Nat) : List (Nat × Nat) :=
  if readU8 buf 8 = 0xEE then
    (0, 10) :: (10, 12) :: frameLoop buf (readU32 buf 14) 22
  else [(0, 10)]

/-- Transport buffer demonstrating the missing bounds check: HID type
0xEE, two raw frames declared, and the first raw frame (type 0, skipped)
declares size 8000 = 0x1F40, pushing the cursor to 8038 inside the
7485-byte buffer; every other byte is zero. -/
def oobBuf : Nat → Nat := fun i =>
  if i = 8 then 0xEE
  else if i = 14 then 2
  else if i = 26 then 64
  else if i = 27 then 31
  else 0

lemma neighbPos_symm {x y a b : Nat} (h : neighbPos x y a b) :
    neighbPos a b x y := by
  unfold neighbPos at h ⊢
  omega

lemma mem_guard {α : Type} {c : Prop} [Decidable c] {a p : α}
    (h : p ∈ (if c then [a] else [])) : c ∧ p = a := by
  by_cases hc : c
  · simp [hc] at h
    exact ⟨hc, h⟩
  · simp [hc] at h

lemma nbrList_neighb {x y : Nat} {p : Nat × Nat} (h : p ∈ nbrList x y) :
    neighbPos x y p.1 p.2 := by
  unfold nbrList at h
  rcases List.mem_append.mp h with h | h
  rotate_left
  · rcases (mem_guard h) with ⟨hc, rfl⟩
    unfold neighbPos
    omega
  rcases List.mem_append.mp h with h | h
  rotate_left
  · rcases (mem_guard h) with ⟨hc, rfl⟩
    unfold neighbPos
    omega
  rcases List.mem_append.mp h with h | h
  rotate_left
  · rcases (mem_guard h) with ⟨hc, rfl⟩
    unfold neighbPos
    omega
  rcases List.mem_append.mp h with h | h
  rotate_left
  · rcases (mem_guard h) with ⟨hc, rfl⟩
    unfold neighbPos
    omega
  rcases List.mem_append.mp h with h | h
  rotate_left
  · rcases (mem_guard h) with ⟨hc, rfl⟩
    unfold neighbPos
    omega
  rcases List.mem_append.mp h with h | h
  rotate_left
  · rcases (mem_guard h) with ⟨hc, rfl⟩
    unfold neighbPos
    omega
  rcases List.mem_append.mp h with h | h
  · rcases (mem_guard h) with ⟨hc, rfl⟩
    unfold neighbPos
    omega
  · rcases (mem_guard h) with ⟨hc, rfl⟩
    unfold neighbPos
    omega

lemma is_brightest_iff_guards (v : Nat → Nat → Nat) (x y : Nat) :
    is_brightest v x y = true ↔
      (¬v x y = 0 ∧
       ¬(0 < x ∧ 0 < y ∧ v x y < v (x - 1) (y - 1)) ∧
       ¬(0 < x ∧ v x y < v (x - 1) y) ∧
       ¬(0 < x ∧ y < HEIGHT - 1 ∧ v x y < v (x - 1) (y + 1)) ∧
       ¬(0 < y ∧ v x y < v x (y - 1)) ∧
       ¬(y < HEIGHT - 1 ∧ v x y < v x (y + 1)) ∧
       ¬(x < WIDTH - 1 ∧ 0 < y ∧ v x y < v (x + 1) (y - 1)) ∧
       ¬(x < WIDTH - 1 ∧ v x y < v (x + 1) y) ∧
       ¬(x < WIDTH - 1 ∧ y < HEIGHT - 1 ∧ v x y < v (x + 1) (y + 1))) := by
  unfold is_brightest
  split_ifs with h1 h2 h3 h4 h5 h6 h7 h8 h9
  · exact iff_of_false (by decide) (fun h => h.1 h1)
  · exact iff_of_false (by decide) (fun h => h.2.1 h2)
  · exact iff_of_false (by decide) (fun h => h.2.2.1 h3)
  · exact iff_of_false (by decide) (fun h => h.2.2.2.1 h4)
  · exact iff_of_false (by decide) (fun h => h.2.2.2.2.1 h5)
  · exact iff_of_false (by decide) (fun h => h.2.2.2.2.2.1 h6)
  · exact iff_of_false (by decide) (fun h => h.2.2.2.2.2.2.1 h7)
  · exact iff_of_false (by decide) (fun h => h.2.2.2.2.2.2.2.1 h8)
  · exact iff_of_false (by decide) (fun h => h.2.2.2.2.2.2.2.2 h9)
  · exact iff_of_true rfl ⟨h1, h2, h3, h4, h5, h6, h7, h8, h9⟩

/-- C7: a sample (x, y) of the normalised grid is classified as a seed
by is_brightest exactly when its value is positive and greater than or
equal to the value of every in-bounds 8-neighbour; ties are permitted,
so equal-valued adjacent samples are all seeds. -/
theorem C7_seed_characterization (v : Nat → Nat → Nat) (x y : Nat)
    (hx : x < WIDTH) (hy : y < HEIGHT) :
    is_brightest v x y = true ↔ seedSpec v x y := by
  rw [is_brightest_iff_guards]
  unfold seedSpec
  constructor
  · rintro ⟨h0, g1, g2, g3, g4, g5, g6, g7, g8⟩
    refine ⟨Nat.pos_of_ne_zero h0, ?_⟩
    rintro a b ha hb ⟨hax, hby, hne⟩
    by_contra hlt
    push_neg at hlt
    have hW : WIDTH = 64 := rfl
    have hH : HEIGHT = 44 := rfl
    rcases hax with h | h | h <;> rcases hby with h2 | h2 | h2
    · exact hne ⟨h, h2⟩
    · have hb1 : b = y - 1 := by omega
      subst h
      exact g4 ⟨by omega, by rwa [← hb1]⟩
    · have hb1 : b = y + 1 := by omega
      subst h
      exact g5 ⟨by omega, by rwa [← hb1]⟩
    · have ha1 : a = x - 1 := by omega
      subst h2
      exact g2 ⟨by omega, by rwa [← ha1]⟩
    · have ha1 : a = x - 1 := by omega
      have hb1 : b = y - 1 := by omega
      exact g1 ⟨by omega, by omega, by rw [← ha1, ← hb1]; exact hlt⟩
    · have ha1 : a = x - 1 := by omega
      have hb1 : b = y + 1 := by omega
      exact g3 ⟨by omega, by omega, by rw [← ha1, ← hb1]; exact hlt⟩
    · have ha1 : a = x + 1 := by omega
      subst h2
      exact g7 ⟨by omega, by rwa [← ha1]⟩
    · have ha1 : a = x + 1 := by omega
      have hb1 : b = y - 1 := by omega
      exact g6 ⟨by omega, by omega, by rw [← ha1, ← hb1]; exact hlt⟩
    · have ha1 : a = x + 1 := by omega
      have hb1 : b = y + 1 := by omega
      exact g8 ⟨by omega, by omega, by rw [← ha1, ← hb1]; exact hlt⟩
  · rintro ⟨h0, hnb⟩
    have hW : WIDTH = 64 := rfl
    have hH : HEIGHT = 44 := rfl
    refine ⟨by omega, ?_, ?_, ?_, ?_, ?_, ?_, ?_, ?_⟩
    · rintro ⟨cx, cy, hlt⟩
      exact absurd hlt (Nat.not_lt.mpr
        (hnb (x - 1) (y - 1) (by omega) (by omega) ⟨by omega, by omega, by omega⟩))
    · rintro ⟨cx, hlt⟩
      exact absurd hlt (Nat.not_lt.mpr
        (hnb (x - 1) y (by omega) (by omega) ⟨by omega, by omega, by omega⟩))
    · rintro ⟨cx, cy, hlt⟩
      exact absurd hlt (Nat.not_lt.mpr
        (hnb (x - 1) (y + 1) (by omega) (by omega) ⟨by omega, by omega, by omega⟩))
    · rintro ⟨cy, hlt⟩
      exact absurd hlt (Nat.not_lt.mpr
        (hnb x (y - 1) (by omega) (by omega) ⟨by omega, by omega, by omega⟩))
    · rintro ⟨cy, hlt⟩
      exact absurd hlt (Nat.not_lt.mpr
        (hnb x (y + 1) (by omega) (by omega) ⟨by omega, by omega, by omega⟩))
    · rintro ⟨cx, cy, hlt⟩
      exact absurd hlt (Nat.not_lt.mpr
        (hnb (x + 1) (y - 1) (by omega) (by omega) ⟨by omega, by omega, by omega⟩))
    · rintro ⟨cx, hlt⟩
      exact absurd hlt (Nat.not_lt.mpr
        (hnb (x + 1) y (by omega) (by omega) ⟨by omega, by omega, by omega⟩))
    · rintro ⟨cx, cy, hlt⟩
      exact absurd hlt (Nat.not_lt.mpr
        (hnb (x + 1) (y + 1) (by omega) (by omega) ⟨by omega, by omega, by omega⟩))

/-- Witness for C7 at a concrete in-bounds plateau sample. -/
theorem C7_seed_characterization_witness :
    is_brightest plateauGrid 5 5 = true ↔ seedSpec plateauGrid 5 5 :=
  C7_seed_characterization plateauGrid 5 5 (by decide) (by decide)

-- Generic foldl helpers used to reason about the sequential neighbour
-- recursion and the per-index passes of the pipeline.

lemma foldl_inv {α β : Type} (Inv : α → Prop) (f : α → β → α) :
    ∀ (l : List β) (a : α), Inv a →
      (∀ a b, b ∈ l → Inv a → Inv (f a b)) → Inv (l.foldl f a) := by
  intro l
  induction l with
  | nil => intro a ha _; exact ha
  | cons b l ih =>
    intro a ha hstep
    exact ih (f a b) (hstep a b (List.mem_cons_self b l) ha)
      (fun a' b' hb' => hstep a' b' (List.mem_cons_of_mem b hb'))

lemma foldl_extend {α β : Type} (f : List α → β → List α) (l : List β)
    (h : ∀ c b, b ∈ l → ∃ s, f c b = c ++ s) :
    ∀ c, ∃ s, l.foldl f c = c ++ s := by
  induction l with
  | nil => intro c; exact ⟨[], (List.append_nil c).symm⟩
  | cons b l ih =>
    intro c
    obtain ⟨s1, hs1⟩ := h c b (List.mem_cons_self b l)
    obtain ⟨s2, hs2⟩ :=
      ih (fun c' b' hb' => h c' b' (List.mem_cons_of_mem b hb')) (c ++ s1)
    exact ⟨s1 ++ s2, by simp [hs1, hs2]⟩

lemma foldl_congr_inv {α β : Type} (Inv : α → Prop) (f₁ f₂ : α → β → α) :
    ∀ (l : List β) (a : α), Inv a →
      (∀ a b, b ∈ l → Inv a → f₁ a b = f₂ a b ∧ Inv (f₁ a b)) →
      l.foldl f₁ a = l.foldl f₂ a := by
  intro l
  induction l with
  | nil => intro a _ _; rfl
  | cons b l ih =>
    intro a ha hstep
    have h1 := hstep a b (List.mem_cons_self b l) ha
    simp only [List.foldl_cons, h1.1]
    exact ih (f₂ a b) (h1.1 ▸ h1.2)
      (fun a' b' hb' => hstep a' b' (List.mem_cons_of_mem b hb'))

lemma get_append_left {α : Type} (l s : List α) (i : Nat) (h : i < l.length)
    (h2 : i < (l ++ s).length) : (l ++ s).get ⟨i, h2⟩ = l.get ⟨i, h⟩ := by
  induction l generalizing i with
  | nil => exact absurd h (Nat.not_lt_zero i)
  | cons a l ih =>
    cases i with
    | zero => rfl
    | succ i => exact ih i (Nat.lt_of_succ_lt_succ h) (Nat.lt_of_succ_lt_succ h2)

lemma get_append_last {α : Type} (l : List α) (a : α)
    (h : l.length < (l ++ [a]).length) : (l ++ [a]).get ⟨l.length, h⟩ = a := by
  induction l with
  | nil => rfl
  | cons b l ih => exact ih (by simp)

-- Extension: assign_group_dimmer only ever appends members.

lemma fill_extend (v : Nat → Nat → Nat) :
    ∀ fuel x y c t, ∃ s, assign_group_dimmer v fuel x y c t = c ++ s := by
  intro fuel
  induction fuel with
  | zero => intro x y c t; exact ⟨[], (List.append_nil c).symm⟩
  | succ f ih =>
    intro x y c t
    rw [assign_group_dimmer]
    split_ifs
    · exact ⟨[], (List.append_nil c).symm⟩
    · exact ⟨[], (List.append_nil c).symm⟩
    · exact ⟨[], (List.append_nil c).symm⟩
    · exact ⟨[], (List.append_nil c).symm⟩
    · obtain ⟨s, hs⟩ := foldl_extend
        (fun c' p => assign_group_dimmer v f p.1 p.2 c' (v x y)) (nbrList x y)
        (fun c' p _ => ih p.1 p.2 c' (v x y)) (c ++ [(⟨x, y, v x y⟩ : Pixel)])
      exact ⟨⟨x, y, v x y⟩ :: s, by simp [hs]⟩

lemma fill_length_le (v : Nat → Nat → Nat) (fuel x y t : Nat) (c : List Pixel) :
    c.length ≤ (assign_group_dimmer v fuel x y c t).length := by
  obtain ⟨s, hs⟩ := fill_extend v fuel x y c t
  simp [hs]

lemma monoDescent_nil : MonoDescent [] := by
  intro i hi
  exact absurd hi (Nat.not_lt_zero i)

lemma monoDescent_append {c : List Pixel} {p : Pixel}
    (hc : MonoDescent c)
    (hp : c = [] ∨ ∃ j, ∃ hj : j < c.length,
      neighbPos p.x p.y (c.get ⟨j, hj⟩).x (c.get ⟨j, hj⟩).y ∧
        p.value ≤ (c.get ⟨j, hj⟩).value) :
    MonoDescent (c ++ [p]) := by
  intro i hi hpos
  have hlen : (c ++ [p]).length = c.length + 1 := by simp
  rcases Nat.lt_or_ge i c.length with hic | hic
  · obtain ⟨j, hj, hji, hnb, hle⟩ := hc i hic hpos
    refine ⟨j, by omega, hji, ?_, ?_⟩
    · rwa [get_append_left c [p] i hic, get_append_left c [p] j hj]
    · rwa [get_append_left c [p] i hic, get_append_left c [p] j hj]
  · have hieq : i = c.length := by omega
    rcases hp with hnil | ⟨j, hj, hnb, hle⟩
    · subst hnil
      simp at hieq
      omega
    · subst hieq
      refine ⟨j, by omega, hj, ?_, ?_⟩
      · rw [get_append_last c p hi, get_append_left c [p] j hj]
        exact hnb
      · rw [get_append_last c p hi, get_append_left c [p] j hj]
        exact hle

lemma fill_monoDescent (v : Nat → Nat → Nat) :
    ∀ fuel x y c t, MonoDescent c → GoodCall c x y t →
      MonoDescent (assign_group_dimmer v fuel x y c t) := by
  intro fuel
  induction fuel with
  | zero => intro x y c t hc _; exact hc
  | succ f ih =>
    intro x y c t hc hgood
    rw [assign_group_dimmer]
    split_ifs with hfull hmem hblack hbright
    · exact hc
    · exact hc
    · exact hc
    · exact hc
    · have hvt : v x y ≤ t := Nat.le_of_not_lt hbright
      have hc1 : MonoDescent (c ++ [(⟨x, y, v x y⟩ : Pixel)]) := by
        refine monoDescent_append hc ?_
        rcases hgood with hnil | ⟨j, hj, hnb, hle⟩
        · exact Or.inl hnil
        · exact Or.inr ⟨j, hj, hnb, le_trans hvt hle⟩
      have hk1 : c.length < (c ++ [(⟨x, y, v x y⟩ : Pixel)]).length := by simp
      have hget1 : (c ++ [(⟨x, y, v x y⟩ : Pixel)]).get ⟨c.length, hk1⟩ = ⟨x, y, v x y⟩ :=
        get_append_last c _ hk1
      have := foldl_inv
        (fun c' : List Pixel => MonoDescent c' ∧
          ∃ hh : c.length < c'.length, c'.get ⟨c.length, hh⟩ = ⟨x, y, v x y⟩)
        (fun c' p => assign_group_dimmer v f p.1 p.2 c' (v x y))
        (nbrList x y) (c ++ [(⟨x, y, v x y⟩ : Pixel)]) ⟨hc1, hk1, hget1⟩ ?_
      · exact this.1
      · rintro c' p hp ⟨hmono, hh, hgetk⟩
        constructor
        · refine ih p.1 p.2 c' (v x y) hmono (Or.inr ?_)
          refine ⟨c.length, hh, ?_, ?_⟩
          · rw [hgetk]
            exact neighbPos_symm (nbrList_neighb hp)
          · rw [hgetk]
        · show ∃ hh : c.length < (assign_group_dimmer v f p.1 p.2 c' (v x y)).length,
            (assign_group_dimmer v f p.1 p.2 c' (v x y)).get ⟨c.length, hh⟩ =
              (⟨x, y, v x y⟩ : Pixel)
          obtain ⟨s, hs⟩ := fill_extend v f p.1 p.2 c' (v x y)
          rw [hs]
          have hh2 : c.length < (c' ++ s).length := by
            simp only [List.length_append]
            omega
          refine ⟨hh2, ?_⟩
          rw [get_append_left c' s c.length hh hh2]
          exact hgetk

/-- C6: monotone descent.  Every cluster the segmenter produces is
assign_group_dimmer applied to the empty cluster at a seed (x, y) with
threshold v x y (src/ipts.c line 336); for every grid, seed and fuel
bound, each member other than the seed has an earlier member that is an
8-neighbour of it with at least its value. -/
theorem C6_monotone_descent (v : Nat → Nat → Nat) (fuel x y : Nat) :
    MonoDescent (assign_group_dimmer v fuel x y [] (v x y)) :=
  fill_monoDescent v fuel x y [] (v x y) monoDescent_nil (Or.inl rfl)

-- Stabilisation of the fuelled recursion.

lemma fill_succ_stab (v : Nat → Nat → Nat) :
    ∀ f x y c t, MAX_CLUSTER_SIZE + 1 - c.length ≤ f →
      assign_group_dimmer v (f + 1) x y c t = assign_group_dimmer v f x y c t := by
  intro f
  induction f with
  | zero =>
    intro x y c t h
    have hM : MAX_CLUSTER_SIZE = 128 := rfl
    have hc : MAX_CLUSTER_SIZE ≤ c.length := by omega
    rw [assign_group_dimmer, assign_group_dimmer, if_pos hc]
  | succ g ih =>
    intro x y c t h
    conv_lhs => rw [assign_group_dimmer]
    conv_rhs => rw [assign_group_dimmer]
    split_ifs
    · rfl
    · rfl
    · rfl
    · rfl
    · refine foldl_congr_inv
        (fun c' : List Pixel => (c ++ [(⟨x, y, v x y⟩ : Pixel)]).length ≤ c'.length)
        (fun c' p => assign_group_dimmer v (g + 1) p.1 p.2 c' (v x y))
        (fun c' p => assign_group_dimmer v g p.1 p.2 c' (v x y))
        (nbrList x y) (c ++ [(⟨x, y, v x y⟩ : Pixel)]) le_rfl ?_
      rintro c' p hp hlen
      have hlen1 : (c ++ [(⟨x, y, v x y⟩ : Pixel)]).length = c.length + 1 := by simp
      constructor
      · exact ih p.1 p.2 c' (v x y) (by omega)
      · exact le_trans hlen (fill_length_le v (g + 1) p.1 p.2 (v x y) c')

/-- C8: the recursive flood fill stabilises within MAX_CLUSTER_SIZE + 1
units of fuel: one unit for the call itself plus at most
MAX_CLUSTER_SIZE nested recursive calls, each of which admits a pixel.
Hence the fuelled model, run with any larger fuel, computes the same
cluster — the recursion of the C source terminates with nested depth
bounded by MAX_CLUSTER_SIZE = 128. -/
theorem C8_fill_depth_bound (v : Nat → Nat → Nat) (x y t : Nat)
    (c : List Pixel) (fuel : Nat)
    (h : MAX_CLUSTER_SIZE + 1 - c.length ≤ fuel) :
    assign_group_dimmer v fuel x y c t =
      assign_group_dimmer v (MAX_CLUSTER_SIZE + 1 - c.length) x y c t := by
  obtain ⟨k, rfl⟩ := Nat.exists_eq_add_of_le h
  clear h
  induction k with
  | zero => rfl
  | succ m ih =>
    have hstep :
        assign_group_dimmer v (MAX_CLUSTER_SIZE + 1 - c.length + m + 1) x y c t =
          assign_group_dimmer v (MAX_CLUSTER_SIZE + 1 - c.length + m) x y c t :=
      fill_succ_stab v (MAX_CLUSTER_SIZE + 1 - c.length + m) x y c t
        (Nat.le_add_right _ m)
    calc assign_group_dimmer v (MAX_CLUSTER_SIZE + 1 - c.length + (m + 1)) x y c t
        = assign_group_dimmer v (MAX_CLUSTER_SIZE + 1 - c.length + m) x y c t := hstep
      _ = assign_group_dimmer v (MAX_CLUSTER_SIZE + 1 - c.length) x y c t := ih

/-- Witness for C8 at a concrete grid, seed and oversized fuel. -/
theorem C8_fill_depth_bound_witness :
    assign_group_dimmer zeroGrid 200 1 1 [] 0 =
      assign_group_dimmer zeroGrid (MAX_CLUSTER_SIZE + 1 - ([] : List Pixel).length) 1 1 [] 0 :=
  C8_fill_depth_bound zeroGrid 1 1 0 [] 200 (by decide)

lemma foldl_weight_le (l : List Pixel) :
    ∀ a : ℚ, a ≤ l.foldl (fun b p => b + (p.value : ℚ)) a := by
  induction l with
  | nil => intro a; exact le_rfl
  | cons p l ih =>
    intro a
    calc a ≤ a + (p.value : ℚ) := le_add_of_nonneg_right (by positivity)
      _ ≤ l.foldl (fun b p => b + (p.value : ℚ)) (a + (p.value : ℚ)) := ih _

/-- C9: a cluster allocated from a seed always admits the seed itself
(a seed has positive value and equals its own threshold while the fresh
cluster is empty), so it is nonempty and its total weight is positive;
the centroid and diameter divisions of the geometry stage therefore
never divide by zero. -/
theorem C9_seed_admitted (v : Nat → Nat → Nat) (x y : Nat)
    (hseed : is_brightest v x y = true) :
    0 < (assign_group_dimmer v (MAX_CLUSTER_SIZE + 1) x y [] (v x y)).length ∧
      0 < totalWeightQ (assign_group_dimmer v (MAX_CLUSTER_SIZE + 1) x y [] (v x y)) := by
  have hv : 0 < v x y :=
    Nat.pos_of_ne_zero ((is_brightest_iff_guards v x y).mp hseed).1
  rw [assign_group_dimmer]
  rw [if_neg (by simp [MAX_CLUSTER_SIZE]), if_neg (by simp),
    if_neg (by omega), if_neg (by omega)]
  obtain ⟨s, hs⟩ := foldl_extend
    (fun c' p => assign_group_dimmer v MAX_CLUSTER_SIZE p.1 p.2 c' (v x y))
    (nbrList x y) (fun c' p _ => fill_extend v MAX_CLUSTER_SIZE p.1 p.2 c' (v x y))
    ([] ++ [(⟨x, y, v x y⟩ : Pixel)])
  rw [hs]
  constructor
  · simp
  · have h1 : totalWeightQ (([] ++ [(⟨x, y, v x y⟩ : Pixel)]) ++ s) =
        s.foldl (fun b p => b + (p.value : ℚ)) ((0 : ℚ) + (v x y : ℚ)) := rfl
    rw [h1]
    calc (0 : ℚ) < (v x y : ℚ) := by exact_mod_cast hv
      _ = 0 + (v x y : ℚ) := (zero_add _).symm
      _ ≤ s.foldl (fun b p => b + (p.value : ℚ)) ((0 : ℚ) + (v x y : ℚ)) :=
          foldl_weight_le s _

/-- Witness for C9 at a concrete seed. -/
theorem C9_seed_admitted_witness :
    0 < (assign_group_dimmer brightGrid (MAX_CLUSTER_SIZE + 1) 5 5 [] (brightGrid 5 5)).length ∧
      0 < totalWeightQ (assign_group_dimmer brightGrid (MAX_CLUSTER_SIZE + 1) 5 5 [] (brightGrid 5 5)) :=
  C9_seed_admitted brightGrid 5 5 (by decide)

lemma invalidateAt_size (g : ClusterGroup) (i : Nat) :
    (invalidateAt g i).size = g.size := rfl

lemma overlapPair_valid_mono {g : ClusterGroup} {i j k : Nat}
    (h : ((overlapPair g i j).clusters k).valid = true) :
    (g.clusters k).valid = true := by
  unfold overlapPair at h
  split_ifs at h
  · unfold invalidateAt at h
    by_cases hk : k = j
    · subst hk
      simp [Function.update_same] at h
    · have h2 : (Function.update g.clusters j
          { g.clusters j with valid := false } k).valid = true := h
      rwa [Function.update_noteq hk] at h2
  · exact h
  · unfold invalidateAt at h
    by_cases hk : k = i
    · subst hk
      simp [Function.update_same] at h
    · have h2 : (Function.update g.clusters i
          { g.clusters i with valid := false } k).valid = true := h
      rwa [Function.update_noteq hk] at h2
  · exact h
  · exact h

lemma foldl_ovStep_valid_mono {l : List (Nat × Nat)} :
    ∀ {g : ClusterGroup} {k : Nat},
      (((l.foldl ovStep g).clusters k).valid = true) →
      (g.clusters k).valid = true := by
  induction l with
  | nil => intro g k h; exact h
  | cons p l ih =>
    intro g k h
    exact overlapPair_valid_mono (ih h)

lemma overlapPair_size (g : ClusterGroup) (i j : Nat) :
    (overlapPair g i j).size = g.size := by
  unfold overlapPair
  split_ifs <;> rfl

/-- C3: the giant-contact veto.  If some cluster of the frame has
diameter above 10 then, after the veto and the subsequent
overlap-suppression pass, every cluster of the frame is invalid, so no
cluster of the frame emits a contact. -/
theorem C3_palm_veto (g : ClusterGroup)
    (h : ∃ i, i < g.size ∧ 10 < (g.clusters i).diameter) :
    ∀ k, k < g.size → ((overlapPass (applyVeto g)).clusters k).valid = false := by
  intro k hk
  have hany : (List.range g.size).any
      (fun i => decide (10 < (g.clusters i).diameter)) = true := by
    obtain ⟨i, hi, hd⟩ := h
    exact List.any_eq_true.mpr ⟨i, List.mem_range.mpr hi, by simpa using hd⟩
  have hveto : ((applyVeto g).clusters k).valid = false := by
    unfold applyVeto
    rw [if_pos hany]
    simp [hk]
  by_contra hval
  have hval2 : ((overlapPass (applyVeto g)).clusters k).valid = true := by
    cases hcase : ((overlapPass (applyVeto g)).clusters k).valid
    · exact absurd hcase hval
    · rfl
  have := foldl_ovStep_valid_mono (l := pairIdx (applyVeto g).size) hval2
  rw [hveto] at this
  exact Bool.false_ne_true this

/-- Witness for C3 at a concrete frame with one giant cluster. -/
theorem C3_palm_veto_witness :
    ((overlapPass (applyVeto palmGroup)).clusters 0).valid = false :=
  C3_palm_veto palmGroup ⟨0, by decide, by with_unfolding_all decide⟩ 0 (by decide)

lemma foldl_ovStep_keeps_invalid {l : List (Nat × Nat)} {g : ClusterGroup} {k : Nat}
    (h : (g.clusters k).valid = false) :
    ((l.foldl ovStep g).clusters k).valid = false := by
  cases hfin : ((l.foldl ovStep g).clusters k).valid
  · rfl
  · have h2 := foldl_ovStep_valid_mono hfin
    rw [h] at h2
    exact absurd h2 (by decide)

/-- C2: pairwise overlap suppression.  The pass is the single fold of
ovStep over the ordered pairs (i, j), i < j, so later pairs see earlier
invalidations.  For any pair that is reached with both clusters still
valid, if the intersection of their bboxes exceeds a quarter of the
smaller bbox area, the cluster of smaller area (i when areas tie, as in
the else-branch of the source) is invalid in the final state of the
pass. -/
theorem C2_overlap_suppression (g : ClusterGroup)
    (done rest : List (Nat × Nat)) (i j : Nat)
    (hsplit : pairIdx g.size = done ++ (i, j) :: rest)
    (hvi : ((done.foldl ovStep g).clusters i).valid = true)
    (hvj : ((done.foldl ovStep g).clusters j).valid = true)
    (hratio : mkRat 1 4 <
      interArea ((done.foldl ovStep g).clusters i)
          ((done.foldl ovStep g).clusters j) /
        min (areaOf ((done.foldl ovStep g).clusters i))
          (areaOf ((done.foldl ovStep g).clusters j))) :
    ((overlapPass g).clusters
        (if areaOf ((done.foldl ovStep g).clusters j) <
            areaOf ((done.foldl ovStep g).clusters i) then j else i)).valid = false := by
  set mid := done.foldl ovStep g with hmid
  have hpass : overlapPass g = rest.foldl ovStep (ovStep mid (i, j)) := by
    unfold overlapPass
    rw [hsplit, List.foldl_append, List.foldl_cons]
  rw [hpass]
  by_cases harea : areaOf (mid.clusters j) < areaOf (mid.clusters i)
  · rw [if_pos harea]
    apply foldl_ovStep_keeps_invalid
    show ((overlapPair mid i j).clusters j).valid = false
    unfold overlapPair
    rw [if_pos ⟨hvi, hvj⟩, if_pos harea]
    rw [min_eq_right (le_of_lt harea)] at hratio
    rw [if_pos hratio]
    show (Function.update mid.clusters j
      { mid.clusters j with valid := false } j).valid = false
    rw [Function.update_same]
  · rw [if_neg harea]
    apply foldl_ovStep_keeps_invalid
    show ((overlapPair mid i j).clusters i).valid = false
    unfold overlapPair
    rw [if_pos ⟨hvi, hvj⟩, if_neg harea]
    rw [min_eq_left (not_lt.mp harea)] at hratio
    rw [if_pos hratio]
    show (Function.update mid.clusters i
      { mid.clusters i with valid := false } i).valid = false
    rw [Function.update_same]

/-- Witness for C2 at a concrete overlapping pair. -/
theorem C2_overlap_suppression_witness :
    ((overlapPass ovG).clusters 1).valid = false := by
  with_unfolding_all
    exact C2_overlap_suppression ovG [] [] 0 1 (by with_unfolding_all decide)
      (by with_unfolding_all decide) (by with_unfolding_all decide)
      (by with_unfolding_all decide)

lemma closestIdx_some {g : ClusterGroup} {p : Cluster} {m : Nat}
    (h : closestIdx g p = some m) :
    m < g.size ∧ (g.clusters m).valid = true ∧ (g.clusters m).id = 0 := by
  unfold closestIdx closestScan at h
  have hinv := foldl_inv
    (fun acc : ℚ × Option Nat => ∀ m', acc.2 = some m' →
      m' < g.size ∧ (g.clusters m').valid = true ∧ (g.clusters m').id = 0)
    (fun acc m' =>
      if (g.clusters m').valid = true ∧ (g.clusters m').id = 0 then
        if sqDist (g.clusters m') p < acc.1 then (sqDist (g.clusters m') p, some m')
        else acc
      else acc)
    (List.range g.size) (mkRat 1000000 1, none)
    (fun m' hm' => absurd hm' (by simp))
    (by
      intro acc b hb hInv
      dsimp only
      split_ifs with h1 h2
      · intro m' hm'
        simp only [Option.some.injEq] at hm'
        subst hm'
        exact ⟨List.mem_range.mp hb, h1.1, h1.2⟩
      · exact hInv
      · exact hInv)
  exact hinv m h

lemma assignIdAt_size (g : ClusterGroup) (m : Nat) (idv : Int) :
    (assignIdAt g m idv).size = g.size := rfl

lemma assignIdAt_same (g : ClusterGroup) (m : Nat) (idv : Int) :
    (assignIdAt g m idv).clusters m = { g.clusters m with id := idv } :=
  Function.update_same m _ g.clusters

lemma assignIdAt_other (g : ClusterGroup) (m k : Nat) (idv : Int) (h : k ≠ m) :
    (assignIdAt g m idv).clusters k = g.clusters k :=
  Function.update_noteq h _ g.clusters

lemma pairStep_cases (prev g : ClusterGroup) (n : Nat) :
    pairStep prev g n = g ∨
      ∃ m, closestIdx g (prev.clusters n) = some m ∧
        (prev.clusters n).valid = true ∧
        pairStep prev g n = assignIdAt g m (prev.clusters n).id := by
  unfold pairStep
  by_cases hval : (prev.clusters n).valid = true
  · rw [if_pos hval]
    cases hcl : closestIdx g (prev.clusters n) with
    | none => exact Or.inl rfl
    | some m => exact Or.inr ⟨m, rfl, hval, rfl⟩
  · rw [if_neg hval]
    exact Or.inl rfl

/-- Main induction for the pairing pass: given a previous frame whose
valid clusters carry distinct positive ids, folding pairStep over any
duplicate-free list of previous indices preserves the id invariants of
the current frame, provided no current id already collides with a
pending previous id. -/
lemma pairAux (prev : ClusterGroup)
    (hpos : validPos prev) (hdist : validDistinct prev) :
    ∀ l : List Nat, l.Nodup → (∀ n ∈ l, n < prev.size) →
      ∀ g : ClusterGroup, nzInv g → distinctNZ g →
        (∀ m, m < g.size → ∀ n ∈ l, (prev.clusters n).valid = true →
          (g.clusters m).id ≠ (prev.clusters n).id) →
        nzInv (l.foldl (pairStep prev) g) ∧
          distinctNZ (l.foldl (pairStep prev) g) ∧
          (l.foldl (pairStep prev) g).size = g.size := by
  intro l
  induction l with
  | nil => intro _ _ g hnz hd _; exact ⟨hnz, hd, rfl⟩
  | cons n l ih =>
    intro hnodup hsub g hnz hd hB
    have hn : n < prev.size := hsub n (List.mem_cons_self n l)
    have hnodup2 := (List.nodup_cons.mp hnodup).2
    have hnmem := (List.nodup_cons.mp hnodup).1
    have hsub2 : ∀ n' ∈ l, n' < prev.size :=
      fun n' hn' => hsub n' (List.mem_cons_of_mem n hn')
    rcases pairStep_cases prev g n with hstep | ⟨m, hcl, hval, hstep⟩
    · simp only [List.foldl_cons, hstep]
      exact ih hnodup2 hsub2 g hnz hd
        (fun m hm n' hn' hv => hB m hm n' (List.mem_cons_of_mem n hn') hv)
    · obtain ⟨hm, hmv, hm0⟩ := closestIdx_some hcl
      have hpid : 0 < (prev.clusters n).id := hpos n hn hval
      simp only [List.foldl_cons, hstep]
      have hsz : (assignIdAt g m (prev.clusters n).id).size = g.size := rfl
      have hnz2 : nzInv (assignIdAt g m (prev.clusters n).id) := by
        intro k hk hkne
        by_cases hkm : k = m
        · rw [hkm]
          rw [assignIdAt_same]
          exact ⟨hmv, hpid⟩
        · rw [assignIdAt_other g m k _ hkm] at hkne ⊢
          exact hnz k hk hkne
      have hd2 : distinctNZ (assignIdAt g m (prev.clusters n).id) := by
        intro i j hi hj hij hine
        by_cases him : i = m
        · by_cases hjm : j = m
          · exact absurd (him.trans hjm.symm) hij
          · rw [him] at hine ⊢
            rw [assignIdAt_same] at hine ⊢
            rw [assignIdAt_other g m j _ hjm]
            exact hB j hj n (List.mem_cons_self n l) hval
        · by_cases hjm : j = m
          · rw [hjm]
            rw [assignIdAt_other g m i _ him] at hine
            rw [assignIdAt_same, assignIdAt_other g m i _ him]
            exact fun he => hB i hi n (List.mem_cons_self n l) hval he.symm
          · rw [assignIdAt_other g m i _ him] at hine ⊢
            rw [assignIdAt_other g m j _ hjm]
            exact hd i j hi hj hij hine
      have hB2 : ∀ k, k < (assignIdAt g m (prev.clusters n).id).size →
          ∀ n' ∈ l, (prev.clusters n').valid = true →
            ((assignIdAt g m (prev.clusters n).id).clusters k).id ≠
              (prev.clusters n').id := by
        intro k hk n' hn' hv'
        by_cases hkm : k = m
        · rw [hkm]
          rw [assignIdAt_same]
          have hnn' : n ≠ n' := fun he => hnmem (he ▸ hn')
          exact hdist n hn n' (hsub2 n' hn') hnn' hval hv'
        · rw [assignIdAt_other g m k _ hkm]
          exact hB k hk n' (List.mem_cons_of_mem n hn') hv'
      have := ih hnodup2 hsub2 (assignIdAt g m (prev.clusters n).id) hnz2 hd2 hB2
      exact ⟨this.1, this.2.1, this.2.2.trans hsz⟩

lemma idUsedB_eq_true {g : ClusterGroup} {v : Int} {n : Nat}
    (hn : n < g.size) (he : (g.clusters n).id = v) : idUsedB g v = true := by
  unfold idUsedB
  exact List.any_eq_true.mpr ⟨n, List.mem_range.mpr hn, by simp [he]⟩

lemma not_used_ne {g : ClusterGroup} {v : Int} {n : Nat}
    (hu : idUsedB g v = false) (hn : n < g.size) : (g.clusters n).id ≠ v := by
  intro he
  rw [idUsedB_eq_true hn he] at hu
  exact absurd hu (by decide)

lemma lowestUnused_spec (g : ClusterGroup) :
    ∀ (fuel : Nat) (start : Int),
      (∃ c : Int, start ≤ c ∧ c < start + (fuel : Int) ∧ idUsedB g c = false) →
      idUsedB g (lowestUnused g fuel start) = false ∧
        start ≤ lowestUnused g fuel start ∧
        ∀ c : Int, start ≤ c → c < lowestUnused g fuel start → idUsedB g c = true := by
  intro fuel
  induction fuel with
  | zero =>
    intro start h
    obtain ⟨c, h1, h2, _⟩ := h
    exact absurd h2 (by push_cast; omega)
  | succ f ih =>
    intro start h
    have hif : lowestUnused g (f + 1) start =
        if idUsedB g start = true then lowestUnused g f (start + 1) else start := rfl
    by_cases hu : idUsedB g start = true
    · have hrw : lowestUnused g (f + 1) start = lowestUnused g f (start + 1) := by
        rw [hif, if_pos hu]
      obtain ⟨c, h1, h2, h3⟩ := h
      have hcs : c ≠ start := fun he => by rw [he, hu] at h3; exact absurd h3 (by decide)
      have hnext := ih (start + 1) ⟨c, by omega, by push_cast at h2 ⊢; omega, h3⟩
      rw [hrw]
      refine ⟨hnext.1, by omega, ?_⟩
      intro d hd1 hd2
      rcases eq_or_lt_of_le hd1 with hds | hds
      · rwa [← hds]
      · exact hnext.2.2 d (by omega) hd2
    · have hu2 : idUsedB g start = false := by
        cases hcase : idUsedB g start
        · rfl
        · exact absurd hcase hu
      have hrw : lowestUnused g (f + 1) start = start := by
        rw [hif, if_neg hu]
      rw [hrw]
      exact ⟨hu2, le_refl start, fun c hc1 hc2 => absurd hc2 (by omega)⟩

lemma exists_unused (g : ClusterGroup) :
    ∃ c : Int, 1 ≤ c ∧ c < 1 + ((g.size + 1 : Nat) : Int) ∧ idUsedB g c = false := by
  by_contra hno
  push_neg at hno
  have hall : ∀ c : Int, 1 ≤ c → c < 1 + ((g.size + 1 : Nat) : Int) →
      idUsedB g c = true := by
    intro c h1 h2
    cases hcase : idUsedB g c
    · exact absurd hcase (hno c h1 h2)
    · rfl
  have hsub : Finset.Icc (1 : Int) (g.size + 1) ⊆
      (Finset.range g.size).image (fun n => (g.clusters n).id) := by
    intro c hc
    rw [Finset.mem_Icc] at hc
    have := hall c hc.1 (by push_cast; omega)
    unfold idUsedB at this
    obtain ⟨n, hn, he⟩ := List.any_eq_true.mp this
    rw [List.mem_range] at hn
    refine Finset.mem_image.mpr ⟨n, Finset.mem_range.mpr hn, ?_⟩
    exact beq_iff_eq.mp he
  have hcard1 : ((Finset.range g.size).image
      (fun n => (g.clusters n).id)).card ≤ g.size := by
    calc ((Finset.range g.size).image (fun n => (g.clusters n).id)).card
        ≤ (Finset.range g.size).card := Finset.card_image_le
      _ = g.size := Finset.card_range g.size
  have hcard2 : (Finset.Icc (1 : Int) (g.size + 1)).card = g.size + 1 := by
    rw [Int.card_Icc]
    omega
  have := Finset.card_le_card hsub
  omega

lemma freshId_spec (g : ClusterGroup) :
    idUsedB g (freshId g) = false ∧ 0 < freshId g ∧
      ∀ c : Int, 0 < c → c < freshId g → idUsedB g c = true := by
  obtain ⟨c, h1, h2, h3⟩ := exists_unused g
  obtain ⟨hu, hge, hmin⟩ := lowestUnused_spec g (g.size + 1) 1 ⟨c, h1, h2, h3⟩
  have he : freshId g = lowestUnused g (g.size + 1) 1 := rfl
  exact ⟨hu, by omega, fun d hd1 hd2 => hmin d (by omega) (by omega)⟩

lemma freshStep_cases (g : ClusterGroup) (m : Nat) :
    (freshStep g m = g ∧
      ¬((g.clusters m).valid = true ∧ (g.clusters m).id = 0)) ∨
      ((g.clusters m).valid = true ∧ (g.clusters m).id = 0 ∧
        freshStep g m = assignIdAt g m (freshId g)) := by
  unfold freshStep
  by_cases hc : (g.clusters m).valid = true ∧ (g.clusters m).id = 0
  · rw [if_pos hc]
    exact Or.inr ⟨hc.1, hc.2, rfl⟩
  · rw [if_neg hc]
    exact Or.inl ⟨rfl, hc⟩

lemma freshStep_keeps {g : ClusterGroup} {m m1 : Nat}
    (h : ¬((g.clusters m).valid = true ∧ (g.clusters m).id = 0)) :
    ¬(((freshStep g m1).clusters m).valid = true ∧
      ((freshStep g m1).clusters m).id = 0) := by
  rcases freshStep_cases g m1 with ⟨hstep, _⟩ | ⟨hval1, hid1, hstep⟩
  · rw [hstep]
    exact h
  · rw [hstep]
    by_cases hmm : m = m1
    · rw [hmm] at h
      exact absurd ⟨hval1, hid1⟩ h
    · rw [assignIdAt_other g m1 m _ hmm]
      exact h

lemma foldl_freshStep_keeps (l : List Nat) :
    ∀ {g : ClusterGroup} {m : Nat},
      ¬((g.clusters m).valid = true ∧ (g.clusters m).id = 0) →
      ¬(((l.foldl freshStep g).clusters m).valid = true ∧
        ((l.foldl freshStep g).clusters m).id = 0) := by
  induction l with
  | nil => intro g m h; exact h
  | cons m1 l ih =>
    intro g m h
    exact ih (freshStep_keeps h)

/-- Main induction for the fresh-id pass: folding freshStep over a list
of indices preserves the id invariants, and afterwards no cluster whose
index was processed is still both valid and id 0. -/
lemma freshAux (l : List Nat) :
    ∀ g : ClusterGroup, nzInv g → distinctNZ g →
      nzInv (l.foldl freshStep g) ∧ distinctNZ (l.foldl freshStep g) ∧
        (l.foldl freshStep g).size = g.size ∧
        (∀ m ∈ l, ¬(((l.foldl freshStep g).clusters m).valid = true ∧
          ((l.foldl freshStep g).clusters m).id = 0)) := by
  induction l with
  | nil =>
    intro g hnz hd
    exact ⟨hnz, hd, rfl, fun m hm => absurd hm (List.not_mem_nil m)⟩
  | cons m0 l ih =>
    intro g hnz hd
    rcases freshStep_cases g m0 with ⟨hstep, hcond⟩ | ⟨hval0, hid0, hstep⟩
    · simp only [List.foldl_cons, hstep]
      obtain ⟨h1, h2, h3, h4⟩ := ih g hnz hd
      refine ⟨h1, h2, h3, ?_⟩
      intro m hm
      rcases List.mem_cons.mp hm with hmm | hml
      · rw [hmm]
        exact foldl_freshStep_keeps l hcond
      · exact h4 m hml
    · obtain ⟨hfu, hfp, _⟩ := freshId_spec g
      have hnz2 : nzInv (assignIdAt g m0 (freshId g)) := by
        intro k hk hkne
        by_cases hkm : k = m0
        · rw [hkm]
          rw [assignIdAt_same]
          exact ⟨hval0, hfp⟩
        · rw [assignIdAt_other g m0 k _ hkm] at hkne ⊢
          exact hnz k hk hkne
      have hd2 : distinctNZ (assignIdAt g m0 (freshId g)) := by
        intro i j hi hj hij hine
        by_cases him : i = m0
        · by_cases hjm : j = m0
          · exact absurd (him.trans hjm.symm) hij
          · rw [him] at hine ⊢
            rw [assignIdAt_same] at hine ⊢
            rw [assignIdAt_other g m0 j _ hjm]
            exact not_used_ne hfu hj
        · by_cases hjm : j = m0
          · rw [hjm]
            rw [assignIdAt_other g m0 i _ him] at hine
            rw [assignIdAt_same, assignIdAt_other g m0 i _ him]
            exact fun he => (not_used_ne hfu hi) he.symm
          · rw [assignIdAt_other g m0 i _ him] at hine ⊢
            rw [assignIdAt_other g m0 j _ hjm]
            exact hd i j hi hj hij hine
      simp only [List.foldl_cons, hstep]
      obtain ⟨h1, h2, h3, h4⟩ := ih (assignIdAt g m0 (freshId g)) hnz2 hd2
      refine ⟨h1, h2, h3, ?_⟩
      intro m hm
      rcases List.mem_cons.mp hm with hmm | hml
      · rw [hmm]
        refine foldl_freshStep_keeps l ?_
        rintro ⟨hv2, h02⟩
        rw [assignIdAt_same] at h02
        simp only at h02
        omega
      · exact h4 m hml

/-- Conditional id uniqueness of the tracker: if the previous frame's
valid clusters carry distinct positive ids and the current frame enters
tracking with every id zeroed, then after the pairing step, and again
after the full tracking step (pairing followed by fresh-id assignment),
any positive id held by a valid cluster is held by no other cluster of
the frame, and the tracking output re-establishes the hypotheses.  The
all-ids-zero hypothesis is what the per-buffer memset of src/ipts.c
line 269 provides for the first heatmap report of a transport buffer;
the theorem for claim C4 below shows that for a later heatmap report of
the same buffer the hypothesis fails and so does the invariant. -/
theorem track_zeroed_id_uniqueness (prev g : ClusterGroup)
    (hpos : validPos prev) (hdist : validDistinct prev)
    (hzero : ∀ m, m < g.size → (g.clusters m).id = 0) :
    uniquePos (pairClusters prev g) ∧ validPos (track prev g) ∧
      validDistinct (track prev g) ∧ uniquePos (track prev g) := by
  have hnz : nzInv g := fun m hm hne => absurd (hzero m hm) hne
  have hd0 : distinctNZ g := fun i j hi hj _ hne => absurd (hzero i hi) hne
  have hB : ∀ m, m < g.size → ∀ n ∈ List.range prev.size,
      (prev.clusters n).valid = true → (g.clusters m).id ≠ (prev.clusters n).id := by
    intro m hm n hn hv
    rw [hzero m hm]
    have := hpos n (List.mem_range.mp hn) hv
    omega
  obtain ⟨hnz1, hd1, hsz1⟩ := pairAux prev hpos hdist (List.range prev.size)
    (List.nodup_range prev.size) (fun n hn => List.mem_range.mp hn) g hnz hd0 hB
  have hnz1' : nzInv (pairClusters prev g) := hnz1
  have hd1' : distinctNZ (pairClusters prev g) := hd1
  have huniq1 : uniquePos (pairClusters prev g) := by
    intro i j hi hj hij _ hpid
    exact hd1' i j hi hj hij (by omega)
  obtain ⟨hnz2, hd2, hsz2, hdone⟩ :=
    freshAux (List.range (pairClusters prev g).size) (pairClusters prev g) hnz1' hd1'
  have hnz2' : nzInv (track prev g) := hnz2
  have hd2' : distinctNZ (track prev g) := hd2
  have hszt : (track prev g).size = (pairClusters prev g).size := hsz2
  have hvp : validPos (track prev g) := by
    intro n hn hv
    have hn2 : n < (pairClusters prev g).size := by omega
    have hnot : ¬(((track prev g).clusters n).valid = true ∧
        ((track prev g).clusters n).id = 0) := hdone n (List.mem_range.mpr hn2)
    by_cases h0 : ((track prev g).clusters n).id = 0
    · exact absurd ⟨hv, h0⟩ hnot
    · exact (hnz2' n hn h0).2
  have hvd : validDistinct (track prev g) := by
    intro n hn m hm hnm _ hv2
    have hid2 : 0 < ((track prev g).clusters m).id := hvp m hm hv2
    exact hd2' m n hm hn (Ne.symm hnm) (by omega)
  have huniq2 : uniquePos (track prev g) := by
    intro i j hi hj hij _ hpid
    exact hd2' i j hi hj hij (by omega)
  exact ⟨huniq1, hvp, hvd, huniq2⟩

/-- Concrete check of track_zeroed_id_uniqueness at a zeroed frame. -/
theorem track_zeroed_id_uniqueness_checked :
    uniquePos (pairClusters prevW curW) ∧ validPos (track prevW curW) ∧
      validDistinct (track prevW curW) ∧ uniquePos (track prevW curW) :=
  track_zeroed_id_uniqueness prevW curW (by decide) (by decide) (by decide)

/-- C4: the id-uniqueness invariant fails on the code.  The cluster
group is zero-initialised once per transport buffer (src/ipts.c line
269) while segmentation and tracking run once per 0x25 report (line
310), so a buffer carrying two heatmap reports re-enters the pipeline
with stale clusters: line 329 resets only the group's size, validity is
only ever set (line 363) and ids are untouched before tracking.  In the
reachable state prevStale/curStale — previous frame with one valid
contact of id 1, current frame with cluster 0 stale (valid, id 1) and
cluster 1 fresh (valid, id 0) — the pairing gate id == 0 (line 404)
skips the stale cluster 0 and copies the previous id 1 onto cluster 1,
and the fresh-id pass finds no id-0 cluster left: after tracking, two
valid clusters of the same frame both hold the positive id 1. -/
theorem C4_stale_id_duplication :
    ((track prevStale curStale).clusters 0).valid = true ∧
      ((track prevStale curStale).clusters 0).id = 1 ∧
      ((track prevStale curStale).clusters 1).valid = true ∧
      ((track prevStale curStale).clusters 1).id = 1 ∧
      (track prevStale curStale).size = 2 ∧
      ¬uniquePos (track prevStale curStale) := by
  have h0v : ((track prevStale curStale).clusters 0).valid = true := by
    with_unfolding_all decide
  have h0i : ((track prevStale curStale).clusters 0).id = 1 := by
    with_unfolding_all decide
  have h1v : ((track prevStale curStale).clusters 1).valid = true := by
    with_unfolding_all decide
  have h1i : ((track prevStale curStale).clusters 1).id = 1 := by
    with_unfolding_all decide
  have hsz : (track prevStale curStale).size = 2 := by
    with_unfolding_all decide
  refine ⟨h0v, h0i, h1v, h1i, hsz, ?_⟩
  intro h
  have hne := h 0 1 (by rw [hsz]; decide) (by rw [hsz]; decide) (by decide)
    h0v (by rw [h0i]; decide)
  rw [h1i, h0i] at hne
  exact hne rfl

lemma foldl_freshStep_other (l : List Nat) :
    ∀ (g : ClusterGroup) (m : Nat), m ∉ l →
      (l.foldl freshStep g).clusters m = g.clusters m := by
  induction l with
  | nil => intro g m _; rfl
  | cons m0 l ih =>
    intro g m hm
    have hne : m ≠ m0 := fun he => hm (he ▸ List.mem_cons_self m0 l)
    have hnl : m ∉ l := fun he => hm (List.mem_cons_of_mem m0 he)
    rw [List.foldl_cons, ih (freshStep g m0) m hnl]
    rcases freshStep_cases g m0 with ⟨h, _⟩ | ⟨_, _, h⟩
    · rw [h]
    · rw [h]
      exact assignIdAt_other g m0 m _ hne

/-- C5 counterexample: in the id-recycling scenario of the claim (three
contacts with ids 1, 2, 3, the middle one lifts, a new fourth contact
appears), the claim predicts id 2 for the new contact.  On the code the
pairing step has no distance gate, so the lifted id 2 is reassigned to
the surviving contact at x = 30 and the previous id 3 is then paired
onto the new contact at x = 50; the fresh-id rule never runs.  The new
contact receives id 3, not 2. -/
theorem C5_recycling_counterexample :
    ((track prevS curS).clusters 2).id = 3 ∧
      ¬((track prevS curS).clusters 2).id = 2 ∧
      ((track prevS curS).clusters 0).id = 1 ∧
      ((track prevS curS).clusters 1).id = 2 := by
  with_unfolding_all decide

/-- C5 (amended): after the pairing step, every remaining valid cluster
whose id is 0 is assigned, in scan order, the lowest positive integer
not in use by any cluster of the current frame at the moment of the
assignment: if the fresh-id fold reaches index m (after processing the
indices of done) with cluster m valid and id 0, then m's final id is
freshId of the intermediate state, which is positive, unused there, and
minimal among the positive unused ids.  In the three-contact lift
scenario the new fourth contact is instead paired to the recycled id 3
by the distance-gate-free pairing step (never 4). -/
theorem C5_fresh_lowest_id (g : ClusterGroup) (done rest : List Nat) (m : Nat)
    (hsplit : List.range g.size = done ++ m :: rest)
    (hvalid : ((done.foldl freshStep g).clusters m).valid = true)
    (hid0 : ((done.foldl freshStep g).clusters m).id = 0) :
    ((assignFresh g).clusters m).id = freshId (done.foldl freshStep g) ∧
      0 < freshId (done.foldl freshStep g) ∧
      idUsedB (done.foldl freshStep g) (freshId (done.foldl freshStep g)) = false ∧
      (∀ c : Int, 0 < c → c < freshId (done.foldl freshStep g) →
        idUsedB (done.foldl freshStep g) c = true) ∧
      ((track prevS curS).clusters 2).id = 3 := by
  have hnodup : (done ++ m :: rest).Nodup := by
    rw [← hsplit]
    exact List.nodup_range g.size
  have hmrest : m ∉ rest :=
    (List.nodup_cons.mp (List.nodup_append.mp hnodup).2.1).1
  have hfold : assignFresh g =
      rest.foldl freshStep (freshStep (done.foldl freshStep g) m) := by
    unfold assignFresh
    rw [hsplit, List.foldl_append, List.foldl_cons]
  have hstepm : (freshStep (done.foldl freshStep g) m).clusters m =
      { (done.foldl freshStep g).clusters m with
        id := freshId (done.foldl freshStep g) } := by
    unfold freshStep
    rw [if_pos ⟨hvalid, hid0⟩]
    exact assignIdAt_same _ m _
  obtain ⟨hu, hp, hmin⟩ := freshId_spec (done.foldl freshStep g)
  refine ⟨?_, hp, hu, hmin, ?_⟩
  · rw [hfold, foldl_freshStep_other rest _ m hmrest, hstepm]
  · with_unfolding_all decide

/-- Witness for C5 at a concrete frame. -/
theorem C5_fresh_lowest_id_witness :
    ((assignFresh gW5).clusters 0).id = freshId (([] : List Nat).foldl freshStep gW5) ∧
      0 < freshId (([] : List Nat).foldl freshStep gW5) ∧
      idUsedB (([] : List Nat).foldl freshStep gW5)
        (freshId (([] : List Nat).foldl freshStep gW5)) = false ∧
      (∀ c : Int, 0 < c → c < freshId (([] : List Nat).foldl freshStep gW5) →
        idUsedB (([] : List Nat).foldl freshStep gW5) c = true) ∧
      ((track prevS curS).clusters 2).id = 3 :=
  C5_fresh_lowest_id gW5 [] [] 0 (by decide) (by decide) (by decide)

lemma slotScan_dropBig (g : ClusterGroup) (vc n : Nat) (hn : n < 6) :
    slotScan g vc n = slotScan (dropBig g) vc n := by
  unfold slotScan
  refine foldl_congr_inv (fun _ => True) _ _ (List.range g.size) ([], -1) trivial ?_
  intro acc i _ _
  refine ⟨?_, trivial⟩
  dsimp only
  by_cases hbig : (g.clusters i).valid = true ∧ 6 < (g.clusters i).id
  · have hdrop : (dropBig g).clusters i = cZero := by
      show (if (g.clusters i).valid = true ∧ 6 < (g.clusters i).id then cZero
        else g.clusters i) = cZero
      rw [if_pos hbig]
    have hg : ¬((g.clusters i).id = (n : Int) + 1 ∧ (g.clusters i).valid = true) := by
      rintro ⟨hid, _⟩
      have : ((n : Nat) : Int) + 1 ≤ 6 := by omega
      omega
    have hz : ¬(((dropBig g).clusters i).id = (n : Int) + 1 ∧
        ((dropBig g).clusters i).valid = true) := by
      rw [hdrop]
      rintro ⟨_, hv⟩
      exact absurd hv (by decide)
    rw [if_neg hg, if_neg hz]
  · have hdrop : (dropBig g).clusters i = g.clusters i := by
      show (if (g.clusters i).valid = true ∧ 6 < (g.clusters i).id then cZero
        else g.clusters i) = g.clusters i
      rw [if_neg hbig]
    rw [hdrop]

/-- C10: a valid cluster whose tracking id exceeds 6 is silently dropped
at the sink.  The slot loop serves only ids 1 through 6, so replacing
every valid cluster with id above 6 by the zero cluster (while keeping
the valid-cluster count, which is computed before the loop over all
clusters) leaves the emitted event stream unchanged: such clusters emit
no position, no touch-major and no tracking id in any slot. -/
theorem C10_sink_drops_large_ids (g : ClusterGroup) :
    emitFrame g = emitFrameWith (dropBig g) (validCount g) := by
  unfold emitFrame emitFrameWith
  have hfold : (List.range 6).foldl (fun acc n => acc ++ slotEvents g (validCount g) n) [] =
      (List.range 6).foldl
        (fun acc n => acc ++ slotEvents (dropBig g) (validCount g) n) [] := by
    refine foldl_congr_inv (fun _ => True) _ _ (List.range 6) [] trivial ?_
    intro acc n hn _
    refine ⟨?_, trivial⟩
    dsimp only
    unfold slotEvents
    rw [slotScan_dropBig g (validCount g) n (List.mem_range.mp hn)]
  rw [hfold]

/-- C1: the decoder of the source performs no bounds check.  On oobBuf
the second raw frame header is read at offset 8038, 569 bytes past the
end of the 7485-byte transport buffer, and the decode signals no error
of any kind — contradicting the claimed MalformedFrame semantics. -/
theorem C1_decoder_reads_past_buffer :
    decodeAccesses oobBuf = [(0, 10), (10, 12), (22, 16), (8038, 16)] ∧
      (8038, 16) ∈ decodeAccesses oobBuf ∧ 7485 < 8038 + 16 := by
  decide

end Ipts

